import Mathlib

/-!
Shallow embedding of the wellbeing_analysis scoring engine (src/index.js,
v4.0.0) together with models of its lexical helper collaborators, and
theorems settling the frozen claims about the natural-language specification.

Conventions of the embedding:
* JavaScript numbers are modelled by `JSNum` (exact rationals plus the two
  infinities and NaN); JS comparison operators on numbers are `JSNum.ltb`
  and `JSNum.leb`, which are false whenever NaN is involved.
* External collaborators (the tokenizer, the n-gram generator, the GB->US
  translator and the two lexicon data files) are parameters gathered in the
  `Externals` structure; the tokenizer returns `none` when it finds no
  tokens, mirroring the falsy `null` return of happynodetokenizer.
* The caller-visible options object is `OptsIn` (fields optional / loosely
  typed as in JS); `normOpts` performs the defaulting and coercion done at
  the top of `wellbeingAnalysis`, and `mutateOpts` is the state of the
  caller's object after the call (the source writes the normalized values
  back into the caller's object).
-/

/-- The ten PERMA scoring categories used to key lexica, intercepts and
results. -/
inductive Category where
  | POS_P | POS_E | POS_R | POS_M | POS_A
  | NEG_P | NEG_E | NEG_R | NEG_M | NEG_A
deriving DecidableEq, Repr, Fintype

/-- A record holding one value of type alpha per PERMA category, mirroring the
JS objects keyed by the ten category names. -/
structure Perma (α : Type) where
  POS_P : α
  POS_E : α
  POS_R : α
  POS_M : α
  POS_A : α
  NEG_P : α
  NEG_E : α
  NEG_R : α
  NEG_M : α
  NEG_A : α
deriving DecidableEq, Repr

/-- Look a category up in a `Perma` record. -/
def Perma.get {α : Type} (p : Perma α) : Category → α
  | .POS_P => p.POS_P
  | .POS_E => p.POS_E
  | .POS_R => p.POS_R
  | .POS_M => p.POS_M
  | .POS_A => p.POS_A
  | .NEG_P => p.NEG_P
  | .NEG_E => p.NEG_E
  | .NEG_R => p.NEG_R
  | .NEG_M => p.NEG_M
  | .NEG_A => p.NEG_A

/-- Apply a function to every category entry of a `Perma` record. -/
def Perma.map {α β : Type} (f : α → β) (p : Perma α) : Perma β :=
  ⟨f p.POS_P, f p.POS_E, f p.POS_R, f p.POS_M, f p.POS_A,
   f p.NEG_P, f p.NEG_E, f p.NEG_R, f p.NEG_M, f p.NEG_A⟩

/-- Build a `Perma` record whose ten entries all hold the same value. -/
def Perma.const {α : Type} (a : α) : Perma α :=
  ⟨a, a, a, a, a, a, a, a, a, a⟩

@[simp] theorem Perma.get_map {α β : Type} (f : α → β) (p : Perma α) (c : Category) :
    (p.map f).get c = f (p.get c) := by
  cases c <;> rfl

@[simp] theorem Perma.get_const {α : Type} (a : α) (c : Category) :
    (Perma.const a).get c = a := by
  cases c <;> rfl

/-- Model of a JavaScript number: an exact rational, one of the two
infinities, or NaN. -/
inductive JSNum where
  | nan
  | negInf
  | posInf
  | fin (q : ℚ)
deriving DecidableEq, Repr

/-- JavaScript strict `<` on numbers: false whenever NaN is involved. -/
def JSNum.ltb : JSNum → JSNum → Bool
  | .nan, _ => false
  | _, .nan => false
  | .negInf, .negInf => false
  | .negInf, _ => true
  | _, .negInf => false
  | .posInf, _ => false
  | .fin _, .posInf => true
  | .fin a, .fin b => decide (a < b)

/-- JavaScript `<=` on numbers: false whenever NaN is involved. -/
def JSNum.leb : JSNum → JSNum → Bool
  | .nan, _ => false
  | _, .nan => false
  | .negInf, _ => true
  | _, .negInf => false
  | _, .posInf => true
  | .posInf, _ => false
  | .fin a, .fin b => decide (a ≤ b)

@[simp] theorem JSNum.ltb_nan_left (x : JSNum) : JSNum.ltb .nan x = false := by
  cases x <;> rfl

@[simp] theorem JSNum.leb_nan_right (x : JSNum) : JSNum.leb x .nan = false := by
  cases x <;> rfl

/-- Does `pat` occur (case-insensitively) as a prefix of `hay`?  Helper for
the JS regex test `s.match(/pat/gi)`. -/
def listStartsWith : List Char → List Char → Bool
  | [], _ => true
  | _ :: _, [] => false
  | a :: as, b :: bs => a == b && listStartsWith as bs

/-- Does `needle` occur as a contiguous sub-list of `hay`? -/
def listHasSub (needle : List Char) : List Char → Bool
  | [] => listStartsWith needle []
  | c :: cs => listStartsWith needle (c :: cs) || listHasSub needle cs

/-- Model of the truthiness of `s.match(/pat/gi)` for a lowercase literal
pattern: case-insensitive substring containment. -/
def containsCI (s pat : String) : Bool :=
  listHasSub pat.data (s.data.map Char.toLower)

/-- Model of JS `String.prototype.trim`. -/
def jsTrim (s : String) : String :=
  ⟨((s.data.dropWhile Char.isWhitespace).reverse.dropWhile Char.isWhitespace).reverse⟩

/-- Model of JS `String.prototype.toLowerCase`. -/
def jsToLower (s : String) : String :=
  ⟨s.data.map Char.toLower⟩

/-- Value of a list of decimal digit characters. -/
def digitsToNat (l : List Char) : ℕ :=
  l.foldl (fun a c => 10 * a + (c.toNat - 48)) 0

/-- The full-stop character, used when parsing decimal literals. -/
def dotChar : Char := '.'

/-- The minus-sign character. -/
def dashChar : Char := '-'

/-- The plus-sign character. -/
def plusChar : Char := '+'

/-- Parse an unsigned decimal literal (digits with an optional single
fraction point), the shapes accepted by JS `Number()` that this model
covers. -/
def parseUnsigned (l : List Char) : Option ℚ :=
  match l.splitOn dotChar with
  | [ds] =>
    if !ds.isEmpty && ds.all Char.isDigit then some ((digitsToNat ds : ℚ)) else none
  | [ds, fs] =>
    if (!ds.isEmpty || !fs.isEmpty) && ds.all Char.isDigit && fs.all Char.isDigit then
      some ((digitsToNat ds : ℚ) + (digitsToNat fs : ℚ) / 10 ^ fs.length)
    else none
  | _ => none

/-- Model of JS `Number(string)` restricted to plain decimal literals: the
empty (or all-whitespace) string coerces to 0, a signed decimal literal to
its value, and anything else to NaN. -/
def strToNum (s : String) : JSNum :=
  let t := (jsTrim s).data
  if t.isEmpty then .fin 0 else
  let signBody : ℚ × List Char :=
    match t with
    | c :: rest =>
      if c == dashChar then (-1, rest) else if c == plusChar then (1, rest) else (1, t)
    | [] => (1, t)
  match parseUnsigned signBody.2 with
  | some q => .fin (signBody.1 * q)
  | none => .nan

/-- Split a list of characters into maximal whitespace-free runs (used by
the concrete tokenizer fixture). -/
def splitWsAux (cur : List Char) : List Char → List (List Char)
  | [] => if cur.isEmpty then [] else [cur.reverse]
  | c :: cs =>
    if c.isWhitespace then
      if cur.isEmpty then splitWsAux [] cs else cur.reverse :: splitWsAux [] cs
    else splitWsAux (c :: cur) cs

/-- A match record (unit string, occurrence count, weight) produced when a
token-multiset unit is present in a lexicon category and its weight passes
the min/max filter (spec section 3, Match Record). -/
structure MatchRec where
  term : String
  count : ℕ
  weight : ℚ
deriving DecidableEq, Repr

/-- A lexicon: for each of the ten categories, an association list from
matchable-unit string to weight.  The two instances (English, Spanish) are
external static data files, so they are parameters of the embedding. -/
abbrev Lexicon : Type := Perma (List (String × ℚ))

/-- Modelled from the spec: lex-helpers `itemCount`, the pre-indexing of the
Token Multiset into a unit-to-count map required by section 4.2 (the
lex-helpers module is a collaborator whose source is not under src/). -/
def itemCount (ts : List String) : List (String × ℕ) :=
  ts.dedup.map fun u => (u, ts.count u)

theorem lookup_map_self {α β : Type} [DecidableEq α] (f : α → β) (u : α) :
    ∀ l : List α, List.lookup u (l.map fun x => (x, f x)) =
      if u ∈ l then some (f u) else none
  | [] => by simp
  | a :: l => by
    by_cases h : u = a
    · subst h
      simp [List.lookup]
    · have hb : (u == a) = false := beq_false_of_ne h
      simp [List.lookup, hb, lookup_map_self f u l, List.mem_cons, h]

theorem itemCount_lookup (ts : List String) (u : String) :
    List.lookup u (itemCount ts) = if u ∈ ts then some (ts.count u) else none := by
  unfold itemCount
  rw [lookup_map_self]
  simp [List.mem_dedup]

/-- Modelled from the spec: lex-helpers `getMatches` (section 4.2 Match
Engine; the lex-helpers module is not under src/).  For each category it
scans that category's lexicon entries once and keeps a match record for
every unit present at least once in the token count map whose weight w
satisfies min < w and w <= max. -/
def getMatches (counts : List (String × ℕ)) (lexicon : Lexicon) (mi ma : JSNum) :
    Perma (List MatchRec) :=
  lexicon.map fun entries =>
    entries.filterMap fun e =>
      match List.lookup e.1 counts with
      | some k =>
        if JSNum.ltb mi (.fin e.2) && JSNum.leb (.fin e.2) ma then
          some ⟨e.1, k, e.2⟩
        else none
      | none => none

/-- Modelled from the spec: decimal rounding to an optional number of places
(section 4.3; configuring no limit returns the value unchanged). -/
def roundPlaces (places : Option ℕ) (q : ℚ) : ℚ :=
  match places with
  | none => q
  | some d => ((round (q * 10 ^ d) : ℤ) : ℚ) / 10 ^ d

/-- Modelled from the spec: lex-helpers `calcLex` (section 4.3 Lexical
Aggregator; the lex-helpers module is not under src/).  `allMatches` is the
total number of matched-token occurrences across all ten categories of the
call, used by percent encoding; a zero word count makes the affected term
zero; the category intercept is added after the aggregation and the result
is then optionally rounded. -/
def calcLex (ms : List MatchRec) (int : ℚ) (enc : String) (wc : ℕ)
    (allMatches : ℕ) (places : Option ℕ) : ℚ :=
  let base : ℚ :=
    if enc = "percent" then
      if wc = 0 then 0 else (allMatches : ℚ) / (wc : ℚ)
    else if enc = "freq" || enc = "frequency" then
      (ms.map fun m => if wc = 0 then 0 else ((m.count : ℚ) / (wc : ℚ)) * m.weight).sum
    else
      (ms.map MatchRec.weight).sum
  roundPlaces places (base + int)

/-- The ten categories in lexicon order, used to aggregate call-level
statistics. -/
def allCats : List Category :=
  [.POS_P, .POS_E, .POS_R, .POS_M, .POS_A, .NEG_P, .NEG_E, .NEG_R, .NEG_M, .NEG_A]

/-- Total matched-token occurrences across all ten categories of one call
(spec section 4.3, percent encoding). -/
def totalMatchCount (found : Perma (List MatchRec)) : ℕ :=
  (allCats.map fun c => ((found.get c).map MatchRec.count).sum).sum

/-- Build a `Perma` record from a function on categories. -/
def Perma.ofFn {α : Type} (f : Category → α) : Perma α :=
  ⟨f .POS_P, f .POS_E, f .POS_R, f .POS_M, f .POS_A,
   f .NEG_P, f .NEG_E, f .NEG_R, f .NEG_M, f .NEG_A⟩

@[simp] theorem Perma.get_ofFn {α : Type} (f : Category → α) (c : Category) :
    (Perma.ofFn f).get c = f c := by
  cases c <;> rfl

/-- Modelled from the spec: lex-helpers `doLex` (apply the Lexical
Aggregator to each of the ten categories; the lex-helpers module is not
under src/). -/
def doLex (found : Perma (List MatchRec)) (ints : Perma ℚ) (enc : String)
    (wc : ℕ) (places : Option ℕ) : Perma ℚ :=
  Perma.ofFn fun c =>
    calcLex (found.get c) (ints.get c) enc wc (totalMatchCount found) places

/-- One row of a match listing: unit, occurrence count, weight, and the
unit's lexical contribution under the active encoding (spec section 4.4). -/
structure MatchTuple where
  term : String
  freq : ℕ
  weight : ℚ
  lex : ℚ
deriving DecidableEq, Repr

/-- Summary statistics of one category's match listing (spec section 4.4). -/
structure MatchInfo where
  total_matches : ℕ
  total_unique_matches : ℕ
  total_tokens : ℕ
  percent_matches : ℚ
deriving DecidableEq, Repr

/-- One category's match listing plus its summary record. -/
structure MatchOut where
  matchesList : List MatchTuple
  info : MatchInfo
deriving DecidableEq, Repr

/-- Modelled from the spec: the per-unit lexical contribution of section 4.4
(the section 4.3 formula for a single unit's count/weight pair, intercept
not added). -/
def unitLex (enc : String) (wc : ℕ) (count : ℕ) (w : ℚ) : ℚ :=
  if enc = "percent" then (if wc = 0 then 0 else (count : ℚ) / (wc : ℚ))
  else if enc = "freq" || enc = "frequency" then
    (if wc = 0 then 0 else ((count : ℚ) / (wc : ℚ)) * w)
  else w

/-- Sort key selection for match listings: `weight`, `lex`, or the default
`freq` (unrecognized values fall back to the default). -/
def sortKeyVal (sb : String) (t : MatchTuple) : ℚ :=
  if sb = "weight" then t.weight
  else if sb = "lex" then t.lex
  else (t.freq : ℚ)

/-- Insert a tuple into a descending-sorted list, keeping the sort stable. -/
def insertDesc (key : MatchTuple → ℚ) (x : MatchTuple) : List MatchTuple → List MatchTuple
  | [] => [x]
  | y :: ys => if key y < key x then x :: y :: ys else y :: insertDesc key x ys

/-- Stable descending insertion sort for match listings. -/
def sortDesc (key : MatchTuple → ℚ) (l : List MatchTuple) : List MatchTuple :=
  l.foldr (insertDesc key) []

/-- Modelled from the spec: lex-helpers `prepareMatches` (section 4.4 Match
Formatter; the lex-helpers module is not under src/). -/
def prepareMatches (ms : List MatchRec) (enc : String) (wc : ℕ)
    (sb : String) (places : Option ℕ) : MatchOut :=
  let tuples := ms.map fun m =>
    MatchTuple.mk m.term m.count (roundPlaces places m.weight)
      (roundPlaces places (unitLex enc wc m.count m.weight))
  let total := (ms.map MatchRec.count).sum
  { matchesList := sortDesc (sortKeyVal sb) tuples
    info :=
      { total_matches := total
        total_unique_matches := ms.length
        total_tokens := wc
        percent_matches := if wc = 0 then 0 else (total : ℚ) * 100 / (wc : ℚ) } }

/-- Modelled from the spec: lex-helpers `doMatches` (apply the Match
Formatter to each of the ten categories; the lex-helpers module is not
under src/). -/
def doMatches (found : Perma (List MatchRec)) (enc : String) (wc : ℕ)
    (sb : String) (places : Option ℕ) : Perma MatchOut :=
  found.map fun ms => prepareMatches ms enc wc sb places

/-- The value returned by a successful scoring call: the requested output
shape (spec section 6; `full` carries the two keys `values` and the match
listings). -/
inductive Result where
  | lex (values : Perma ℚ)
  | matchesMode (listing : Perma MatchOut)
  | full (values : Perma ℚ) (listing : Perma MatchOut)
deriving DecidableEq, Repr

/-- The external collaborators of the engine (spec section 1, OUT OF SCOPE):
tokenizer, n-gram generator (already joined to strings, the composition
`arr2string(simplengrams(str, n))` of the source), GB-to-US translator, and
the two lexicon data files. -/
structure Externals where
  tokenize : String → Option (List String)
  ngrams : String → ℕ → List String
  uk2us : String → String
  english : Lexicon
  spanish : Lexicon

/-- The all-zero English intercept vector (src/index.js lines 163-174). -/
def zeroInts : Perma ℚ := Perma.const 0

/-- The Spanish intercept vector hard-coded in src/index.js lines 179-190. -/
def spanishInts : Perma ℚ :=
  ⟨2.675173871, 2.055179283, 1.977389757, 1.738298902, 3.414517804,
   2.50468297, 1.673629622, 1.782788984, 1.52890284, 2.482131179⟩

/-- A raw `min`/`max` option value: absent, a JS number, or a string to be
coerced with `Number()`. -/
inductive NumOpt where
  | unset
  | num (n : JSNum)
  | str (s : String)
deriving DecidableEq, Repr

/-- A raw `nGrams` option value: absent, an array of span sizes, or a
non-array scalar (recorded by whether it is loosely equal to 0). -/
inductive NGramsIn where
  | unset
  | arr (l : List ℕ)
  | scalar (looseZero : Bool)
deriving DecidableEq, Repr

/-- A loosely typed JS value used for the `wcGrams` option, which the source
compares with strict equality against `true`. -/
inductive JsLoose where
  | bTrue
  | bFalse
  | sVal (s : String)
deriving DecidableEq, Repr

/-- The caller's options object as passed in: every field optional, mirroring
the `opts` parameter of `wellbeingAnalysis` (src/index.js line 84). -/
structure OptsIn where
  encoding : Option String := none
  lang : Option String := none
  locale : Option String := none
  logs : Option ℚ := none
  suppressLog : Bool := false
  max : NumOpt := .unset
  min : NumOpt := .unset
  nGrams : NGramsIn := .unset
  noInt : Option Bool := none
  output : Option String := none
  places : Option ℕ := none
  sortBy : Option String := none
  wcGrams : Option JsLoose := none
deriving DecidableEq, Repr

/-- An options object with every field absent, i.e. the JS default `{}`. -/
def emptyOptsIn : OptsIn := {}

/-- The options object after the defaulting and coercion block of
src/index.js lines 86-115. -/
structure Opts where
  encoding : String
  lang : String
  locale : String
  logs : ℚ
  max : JSNum
  min : JSNum
  nGrams : List ℕ
  noInt : Bool
  output : String
  places : Option ℕ
  sortBy : String
  wcGrams : JsLoose
deriving DecidableEq, Repr

/-- JS `Number()` coercion of a raw option value. -/
def NumOpt.toNumber : NumOpt → JSNum
  | .unset => .nan
  | .num n => n
  | .str s => strToNum s

/-- The min/max defaulting and coercion of src/index.js lines 91-100: default
the absent bound to the matching infinity; then, if either bound is not a
number, the source coerces both with `Number()`.  Since `Number()` is the
identity on values that are already numbers, the model coerces
unconditionally; the source's subsequent fallback to infinity can never fire
because `typeof NaN` is `'number'`, so a non-numeric bound stays NaN. -/
def normMinMax (mi ma : NumOpt) : JSNum × JSNum :=
  let mi0 : NumOpt := match mi with | .unset => .num .negInf | x => x
  let ma0 : NumOpt := match ma with | .unset => .num .posInf | x => x
  (mi0.toNumber, ma0.toNumber)

/-- The nGrams defaulting of src/index.js lines 101-111: absent means
`[2, 3]`; a non-array loosely equal to 0 becomes `[0]`; any other non-array
falls back to `[2, 3]` with a warning. -/
def normNGrams : NGramsIn → List ℕ
  | .unset => [2, 3]
  | .arr l => l
  | .scalar looseZero => if looseZero then [0] else [2, 3]

/-- The whole defaulting block of src/index.js lines 86-115 applied to the
caller's options object. -/
def normOpts (i : OptsIn) : Opts :=
  let mm := normMinMax i.min i.max
  { encoding := i.encoding.getD "binary"
    lang := i.lang.getD "english"
    locale := i.locale.getD "US"
    logs := if i.suppressLog then 0 else i.logs.getD 3
    min := mm.1
    max := mm.2
    nGrams := normNGrams i.nGrams
    noInt := i.noInt.getD false
    output := i.output.getD "lex"
    places := i.places
    sortBy := i.sortBy.getD "freq"
    wcGrams := i.wcGrams.getD .bFalse }

/-- The caller's options object after the call: the source assigns every
defaulted / coerced value back into the caller's own object (the `opts.x =`
assignments of src/index.js lines 86-115); `places` and `suppressLog` are
only read, never written. -/
def mutateOpts (i : OptsIn) : OptsIn :=
  let o := normOpts i
  { i with
    encoding := some o.encoding
    lang := some o.lang
    locale := some o.locale
    logs := some o.logs
    max := .num o.max
    min := .num o.min
    nGrams := .arr o.nGrams
    noInt := some o.noInt
    output := some o.output
    sortBy := some o.sortBy
    wcGrams := some o.wcGrams }

/-- Input normalization of src/index.js lines 131-133: trim, lowercase, then
apply the GB-to-US translator when lang matches `english` and locale matches
`gb`. -/
def preprocess (ext : Externals) (o : Opts) (s : String) : String :=
  let t := jsToLower (jsTrim s)
  if containsCI o.lang "english" && containsCI o.locale "gb" then ext.uk2us t else t

/-- The n-gram loop body of src/index.js lines 145-157: process the requested
spans in order; a span whose size exceeds the pre-n-gram word count errors
the `async.each`, which stops the remaining spans; each successful span
prepends its joined n-grams to the token list. -/
def addNGramsGo (ext : Externals) (t : String) (wc : ℕ) :
    List ℕ → List String → List String
  | [], ts => ts
  | n :: rest, ts =>
    if wc < n then ts else addNGramsGo ext t wc rest (ext.ngrams t n ++ ts)

/-- The n-gram block of src/index.js lines 144-158: skipped entirely when the
normalized spans contain 0, otherwise the guarded loop over the spans. -/
def addNGrams (ext : Externals) (t : String) (toks : List String)
    (spans : List ℕ) : List String :=
  if spans.contains 0 then toks else addNGramsGo ext t toks.length spans toks

/-- The scoring pipeline of src/index.js lines 123-220 after options
normalization: falsy-input check, preprocessing, tokenization (null returns
null), n-gram assembly, word count (recomputed only when `wcGrams` is
strictly `true`), lexicon and intercept selection (the source tests the
`output` option for `spanish`/`espanol`), matching, and output shaping.
The `full` branch mirrors the synchronous completion of `async.parallel`
with synchronous tasks (async v2). -/
def run (ext : Externals) (o : Opts) (s : String) : Option Result :=
  if s = "" then none else
  let t := preprocess ext o s
  match ext.tokenize t with
  | none => none
  | some toks =>
    let tokens := addNGrams ext t toks o.nGrams
    let wordcount := if o.wcGrams = .bTrue then tokens.length else toks.length
    let isSpa := containsCI o.output "spanish" || containsCI o.output "espanol"
    let lexicon := if isSpa then ext.spanish else ext.english
    let ints := if isSpa then (if o.noInt = false then spanishInts else zeroInts) else zeroInts
    let found := getMatches (itemCount tokens) lexicon o.min o.max
    if containsCI o.output "matches" then
      some (.matchesMode (doMatches found o.encoding wordcount o.sortBy o.places))
    else if containsCI o.output "full" then
      some (.full (doLex found ints o.encoding wordcount o.places)
        (doMatches found o.encoding wordcount o.sortBy o.places))
    else
      some (.lex (doLex found ints o.encoding wordcount o.places))

/-- The exported `wellbeingAnalysis` of src/index.js: normalize the options
(mutating the caller's object), return null on falsy input, otherwise run
the pipeline.  The second component is the caller's options object after
the call. -/
def wellbeingAnalysis (ext : Externals) (strO : Option String) (i : OptsIn) :
    Option Result × OptsIn :=
  let o := normOpts i
  (match strO with
   | none => none
   | some s => run ext o s,
   mutateOpts i)

/-- Concrete tokenizer fixture: whitespace splitting, `none` when no token
is found (happynodetokenizer returns null then). -/
def exTokens (s : String) : List String :=
  (splitWsAux [] s.data).map fun l => ⟨l⟩

/-- Option-valued front of the tokenizer fixture. -/
def exTokenize (s : String) : Option (List String) :=
  let ts := exTokens s
  if ts.isEmpty then none else some ts

/-- Concrete n-gram generator fixture: contiguous windows of n tokens joined
by single spaces, the shape `arr2string(simplengrams(str, n))` produces. -/
def exNgrams (s : String) (n : ℕ) : List String :=
  let ts := exTokens s
  (List.range (ts.length + 1 - n)).map fun i =>
    String.intercalate " " ((ts.drop i).take n)

/-- Small concrete English lexicon used by the witnesses (the real data file
is external). -/
def lexEngEx : Lexicon :=
  { Perma.const [] with POS_P := [("happy", 1 / 2)], NEG_P := [("sad", 3 / 10)] }

/-- Small concrete Spanish lexicon used by the witnesses. -/
def lexSpaEx : Lexicon :=
  { Perma.const [] with POS_P := [("feliz", 1 / 2)] }

/-- The concrete bundle of collaborators used by the witnesses. -/
def extEx : Externals :=
  { tokenize := exTokenize
    ngrams := exNgrams
    uk2us := id
    english := lexEngEx
    spanish := lexSpaEx }

/-- A second English lexicon fixture carrying a bigram entry, used to tell
apart which n-gram spans were actually applied. -/
def lexEng2 : Lexicon :=
  { Perma.const [] with POS_E := [("a b", 1 / 4)] }

/-- Collaborator bundle around `lexEng2`. -/
def extEx2 : Externals :=
  { extEx with english := lexEng2 }

/-- The fully defaulted options record produced by a call with `opts = {}`. -/
def defaultOpts : Opts :=
  { encoding := "binary", lang := "english", locale := "US", logs := 3,
    max := .posInf, min := .negInf, nGrams := [2, 3], noInt := false,
    output := "lex", places := none, sortBy := "freq", wcGrams := .bFalse }

theorem normOpts_empty : normOpts emptyOptsIn = defaultOpts := rfl

/-- Evaluation shape of `run` when the output option selects the default
`lex` branch and the English path: the result is the aggregated values of
the matches of the assembled tokens against the English lexicon with the
all-zero intercepts. -/
theorem run_lex_eval (ext : Externals) (o : Opts) (s : String)
    (hs : s ≠ "")
    (hsp : containsCI o.output "spanish" = false)
    (hes : containsCI o.output "espanol" = false)
    (hm : containsCI o.output "matches" = false)
    (hf : containsCI o.output "full" = false)
    (toks : List String)
    (htok : ext.tokenize (preprocess ext o s) = some toks) :
    run ext o s =
      some (.lex (doLex
        (getMatches (itemCount (addNGrams ext (preprocess ext o s) toks o.nGrams))
          ext.english o.min o.max)
        zeroInts o.encoding
        (if o.wcGrams = .bTrue
          then (addNGrams ext (preprocess ext o s) toks o.nGrams).length
          else toks.length)
        o.places)) := by
  unfold run
  rw [if_neg hs]
  simp only [htok, hsp, hes, hm, hf, Bool.or_self, Bool.false_eq_true, if_false]

/-- Two `Perma` records with equal entries at every category are equal. -/
theorem Perma.ext_of_get {α : Type} {p q : Perma α} (h : ∀ c, p.get c = q.get c) : p = q := by
  cases p
  cases q
  simp only [Perma.mk.injEq]
  exact ⟨h .POS_P, h .POS_E, h .POS_R, h .POS_M, h .POS_A,
    h .NEG_P, h .NEG_E, h .NEG_R, h .NEG_M, h .NEG_A⟩

/-- Pointwise equal generating functions build equal `Perma` records. -/
theorem Perma.ofFn_congr {α : Type} {f g : Category → α} (h : ∀ c, f c = g c) :
    Perma.ofFn f = Perma.ofFn g :=
  Perma.ext_of_get (by intro c; simp [h])

/-- Evaluation shape of `run` on the Spanish-data path: when the output
option contains `spanish` the source selects the Spanish lexicon, and (with
noInt false) the Spanish intercepts, even though the output still falls
through to the `lex` shape when it contains neither `matches` nor `full`. -/
theorem run_lex_eval_spanish (ext : Externals) (o : Opts) (s : String)
    (hs : s ≠ "")
    (hsp : containsCI o.output "spanish" = true)
    (hm : containsCI o.output "matches" = false)
    (hf : containsCI o.output "full" = false)
    (hni : o.noInt = false)
    (toks : List String)
    (htok : ext.tokenize (preprocess ext o s) = some toks) :
    run ext o s =
      some (.lex (doLex
        (getMatches (itemCount (addNGrams ext (preprocess ext o s) toks o.nGrams))
          ext.spanish o.min o.max)
        spanishInts o.encoding
        (if o.wcGrams = .bTrue
          then (addNGrams ext (preprocess ext o s) toks o.nGrams).length
          else toks.length)
        o.places)) := by
  unfold run
  rw [if_neg hs]
  simp only [htok, hsp, hm, hf, hni, Bool.true_or, Bool.false_eq_true, if_false, if_true]

/-- Evaluation shape of `run` for the `matches` output on the English path. -/
theorem run_matches_eval (ext : Externals) (o : Opts) (s : String)
    (hs : s ≠ "")
    (hsp : containsCI o.output "spanish" = false)
    (hes : containsCI o.output "espanol" = false)
    (hm : containsCI o.output "matches" = true)
    (toks : List String)
    (htok : ext.tokenize (preprocess ext o s) = some toks) :
    run ext o s =
      some (.matchesMode (doMatches
        (getMatches (itemCount (addNGrams ext (preprocess ext o s) toks o.nGrams))
          ext.english o.min o.max)
        o.encoding
        (if o.wcGrams = .bTrue
          then (addNGrams ext (preprocess ext o s) toks o.nGrams).length
          else toks.length)
        o.sortBy o.places)) := by
  unfold run
  rw [if_neg hs]
  simp only [htok, hsp, hes, hm, Bool.or_self, Bool.false_eq_true, if_false, if_true]

/-- Evaluation shape of `run` for the `full` output on the English path. -/
theorem run_full_eval (ext : Externals) (o : Opts) (s : String)
    (hs : s ≠ "")
    (hsp : containsCI o.output "spanish" = false)
    (hes : containsCI o.output "espanol" = false)
    (hm : containsCI o.output "matches" = false)
    (hf : containsCI o.output "full" = true)
    (toks : List String)
    (htok : ext.tokenize (preprocess ext o s) = some toks) :
    run ext o s =
      some (.full
        (doLex
          (getMatches (itemCount (addNGrams ext (preprocess ext o s) toks o.nGrams))
            ext.english o.min o.max)
          zeroInts o.encoding
          (if o.wcGrams = .bTrue
            then (addNGrams ext (preprocess ext o s) toks o.nGrams).length
            else toks.length)
          o.places)
        (doMatches
          (getMatches (itemCount (addNGrams ext (preprocess ext o s) toks o.nGrams))
            ext.english o.min o.max)
          o.encoding
          (if o.wcGrams = .bTrue
            then (addNGrams ext (preprocess ext o s) toks o.nGrams).length
            else toks.length)
          o.sortBy o.places)) := by
  unfold run
  rw [if_neg hs]
  simp only [htok, hsp, hes, hm, hf, Bool.or_self, Bool.false_eq_true, if_false, if_true]

/-- A list containment test is false exactly when the element is not a
member. -/
theorem contains_false_iff {α : Type} [BEq α] [LawfulBEq α] (a : α) (l : List α) :
    l.contains a = false ↔ a ∉ l := by
  simp [List.contains, List.elem_eq_mem]

/-- The n-gram loop applies the spans preceding the first oversized one and
then stops: the oversized span errors the `async.each`, dropping it and
every remaining span. -/
theorem addNGramsGo_stop (ext : Externals) (t : String) (wc : ℕ) (n : ℕ)
    (post : List ℕ) (hn : wc < n) :
    ∀ (pre : List ℕ) (ts : List String), (∀ m ∈ pre, ¬ wc < m) →
      addNGramsGo ext t wc (pre ++ n :: post) ts = addNGramsGo ext t wc pre ts
  | [], ts, _ => by
    simp only [List.nil_append, addNGramsGo, if_pos hn]
  | m :: pre, ts, hpre => by
    have hm : ¬ wc < m := hpre m (List.mem_cons_self m pre)
    simp only [List.cons_append, addNGramsGo, if_neg hm]
    exact addNGramsGo_stop ext t wc n post hn pre _
      fun mm hmm => hpre mm (List.mem_cons_of_mem m hmm)

/-- C1: the spec says the lexicon and the intercept vector are selected by
the `lang` option and that `output` has no influence on that selection.
The source (src/index.js line 176) instead tests the `output` option for
`spanish`/`espanol`: scoring "feliz" with lang 'spanish' uses the English
lexicon and all-zero intercepts (all ten values 0 even though the Spanish
lexicon carries the word), while scoring it with output 'spanish' and lang
left at its default uses the Spanish lexicon and intercepts. -/
theorem C1_lexicon_selected_by_output :
    (wellbeingAnalysis extEx (some "feliz") { emptyOptsIn with lang := some "spanish" }).1 =
      some (.lex (Perma.const 0)) ∧
    (wellbeingAnalysis extEx (some "feliz") { emptyOptsIn with output := some "spanish" }).1 =
      some (.lex { spanishInts with POS_P := 3.175173871 }) := by
  constructor
  · have hnorm : normOpts { emptyOptsIn with lang := some "spanish" } =
        { defaultOpts with lang := "spanish" } := rfl
    have hpre : preprocess extEx { defaultOpts with lang := "spanish" } "feliz" = "feliz" := by
      decide
    have htok : extEx.tokenize
        (preprocess extEx { defaultOpts with lang := "spanish" } "feliz") = some ["feliz"] := by
      rw [hpre]; decide
    have h := run_lex_eval extEx { defaultOpts with lang := "spanish" } "feliz" (by decide)
      (by decide) (by decide) (by decide) (by decide) ["feliz"] htok
    have hadd : addNGrams extEx
        (preprocess extEx { defaultOpts with lang := "spanish" } "feliz") ["feliz"]
        ({ defaultOpts with lang := "spanish" } : Opts).nGrams = ["feliz"] := by
      rw [hpre]; decide
    rw [hadd] at h
    have hfound : getMatches (itemCount ["feliz"]) extEx.english
        ({ defaultOpts with lang := "spanish" } : Opts).min
        ({ defaultOpts with lang := "spanish" } : Opts).max = Perma.const [] := rfl
    rw [hfound] at h
    show (wellbeingAnalysis extEx (some "feliz") { emptyOptsIn with lang := some "spanish" }).1 = _
    simp only [wellbeingAnalysis, hnorm, h]
    simp [doLex, calcLex, totalMatchCount, allCats, Perma.get, Perma.ofFn, zeroInts,
      Perma.const, roundPlaces, defaultOpts, Perma.mk.injEq]
  · have hnorm : normOpts { emptyOptsIn with output := some "spanish" } =
        { defaultOpts with output := "spanish" } := rfl
    have hpre : preprocess extEx { defaultOpts with output := "spanish" } "feliz" = "feliz" := by
      decide
    have htok : extEx.tokenize
        (preprocess extEx { defaultOpts with output := "spanish" } "feliz") = some ["feliz"] := by
      rw [hpre]; decide
    have h := run_lex_eval_spanish extEx { defaultOpts with output := "spanish" } "feliz"
      (by decide) (by decide) (by decide) (by decide) (by decide) ["feliz"] htok
    have hadd : addNGrams extEx
        (preprocess extEx { defaultOpts with output := "spanish" } "feliz") ["feliz"]
        ({ defaultOpts with output := "spanish" } : Opts).nGrams = ["feliz"] := by
      rw [hpre]; decide
    rw [hadd] at h
    have hfound : getMatches (itemCount ["feliz"]) extEx.spanish
        ({ defaultOpts with output := "spanish" } : Opts).min
        ({ defaultOpts with output := "spanish" } : Opts).max =
        { Perma.const [] with POS_P := [⟨"feliz", 1, 1 / 2⟩] } := rfl
    rw [hfound] at h
    show (wellbeingAnalysis extEx (some "feliz") { emptyOptsIn with output := some "spanish" }).1 = _
    simp only [wellbeingAnalysis, hnorm, h]
    simp [doLex, calcLex, totalMatchCount, allCats, Perma.get, Perma.ofFn, spanishInts,
      Perma.const, roundPlaces, defaultOpts, Perma.mk.injEq]
    norm_num

/-- C2: a falsy input string (absent or empty) returns null before any
processing, and a tokenization that finds no tokens (the tokenizer returns
its falsy null) also returns null; no exception arises (the embedding is
total). -/
theorem C2_null_on_empty_input (ext : Externals) (i : OptsIn) (strO : Option String) :
    ((strO = none ∨ strO = some "") → (wellbeingAnalysis ext strO i).1 = none) ∧
    (∀ s : String, strO = some s →
      ext.tokenize (preprocess ext (normOpts i) s) = none →
      (wellbeingAnalysis ext strO i).1 = none) := by
  constructor
  · rintro (rfl | rfl)
    · rfl
    · simp [wellbeingAnalysis, run]
  · rintro s rfl htok
    by_cases hs : s = ""
    · subst hs; simp [wellbeingAnalysis, run]
    · simp [wellbeingAnalysis, run, hs, htok]

/-- Witness for C2: the empty string and an all-whitespace string (whose
tokenization finds nothing) both yield null. -/
theorem C2_null_on_empty_input_witness :
    (wellbeingAnalysis extEx (some "") emptyOptsIn).1 = none ∧
    (wellbeingAnalysis extEx (some " ") emptyOptsIn).1 = none := by
  constructor
  · exact (C2_null_on_empty_input extEx emptyOptsIn (some "")).1 (Or.inr rfl)
  · exact (C2_null_on_empty_input extEx emptyOptsIn (some " ")).2 " " rfl (by decide)

/-- C7 (counterexample): the claim says an oversized span is skipped and
scoring proceeds, which for nGrams [5, 2] on the 3-token "a b c" would give
the nGrams [2] result (the bigram "a b" matches with weight 1/4).  In the
source the first oversized span errors the whole `async.each`, so the
in-range 2-span is also dropped: the call scores like one with n-grams
disabled and differs from the [2] scoring. -/
theorem C7_oversized_span_counterexample :
    run extEx2 { defaultOpts with nGrams := [5, 2] } "a b c" =
      run extEx2 { defaultOpts with nGrams := [0] } "a b c" ∧
    run extEx2 { defaultOpts with nGrams := [5, 2] } "a b c" ≠
      run extEx2 { defaultOpts with nGrams := [2] } "a b c" := by
  have v1 : run extEx2 { defaultOpts with nGrams := [5, 2] } "a b c" =
      some (.lex (Perma.const 0)) := by
    have hpre : preprocess extEx2 { defaultOpts with nGrams := [5, 2] } "a b c" = "a b c" := by
      decide
    have htok : extEx2.tokenize
        (preprocess extEx2 { defaultOpts with nGrams := [5, 2] } "a b c") =
        some ["a", "b", "c"] := by
      rw [hpre]; decide
    have h := run_lex_eval extEx2 { defaultOpts with nGrams := [5, 2] } "a b c" (by decide)
      (by decide) (by decide) (by decide) (by decide) ["a", "b", "c"] htok
    have hadd : addNGrams extEx2
        (preprocess extEx2 { defaultOpts with nGrams := [5, 2] } "a b c") ["a", "b", "c"]
        ({ defaultOpts with nGrams := [5, 2] } : Opts).nGrams = ["a", "b", "c"] := by
      rw [hpre]; decide
    rw [hadd] at h
    have hfound : getMatches (itemCount ["a", "b", "c"]) extEx2.english
        ({ defaultOpts with nGrams := [5, 2] } : Opts).min
        ({ defaultOpts with nGrams := [5, 2] } : Opts).max = Perma.const [] := rfl
    rw [hfound] at h
    rw [h]
    simp [doLex, calcLex, totalMatchCount, allCats, Perma.get, Perma.ofFn, zeroInts,
      Perma.const, roundPlaces, defaultOpts, Perma.mk.injEq]
  have v2 : run extEx2 { defaultOpts with nGrams := [0] } "a b c" =
      some (.lex (Perma.const 0)) := by
    have hpre : preprocess extEx2 { defaultOpts with nGrams := [0] } "a b c" = "a b c" := by
      decide
    have htok : extEx2.tokenize
        (preprocess extEx2 { defaultOpts with nGrams := [0] } "a b c") =
        some ["a", "b", "c"] := by
      rw [hpre]; decide
    have h := run_lex_eval extEx2 { defaultOpts with nGrams := [0] } "a b c" (by decide)
      (by decide) (by decide) (by decide) (by decide) ["a", "b", "c"] htok
    have hadd : addNGrams extEx2
        (preprocess extEx2 { defaultOpts with nGrams := [0] } "a b c") ["a", "b", "c"]
        ({ defaultOpts with nGrams := [0] } : Opts).nGrams = ["a", "b", "c"] := by
      rw [hpre]; decide
    rw [hadd] at h
    have hfound : getMatches (itemCount ["a", "b", "c"]) extEx2.english
        ({ defaultOpts with nGrams := [0] } : Opts).min
        ({ defaultOpts with nGrams := [0] } : Opts).max = Perma.const [] := rfl
    rw [hfound] at h
    rw [h]
    simp [doLex, calcLex, totalMatchCount, allCats, Perma.get, Perma.ofFn, zeroInts,
      Perma.const, roundPlaces, defaultOpts, Perma.mk.injEq]
  have v3 : run extEx2 { defaultOpts with nGrams := [2] } "a b c" =
      some (.lex { Perma.const 0 with POS_E := 1 / 4 }) := by
    have hpre : preprocess extEx2 { defaultOpts with nGrams := [2] } "a b c" = "a b c" := by
      decide
    have htok : extEx2.tokenize
        (preprocess extEx2 { defaultOpts with nGrams := [2] } "a b c") =
        some ["a", "b", "c"] := by
      rw [hpre]; decide
    have h := run_lex_eval extEx2 { defaultOpts with nGrams := [2] } "a b c" (by decide)
      (by decide) (by decide) (by decide) (by decide) ["a", "b", "c"] htok
    have hadd : addNGrams extEx2
        (preprocess extEx2 { defaultOpts with nGrams := [2] } "a b c") ["a", "b", "c"]
        ({ defaultOpts with nGrams := [2] } : Opts).nGrams =
        ["a b", "b c", "a", "b", "c"] := by
      rw [hpre]; decide
    rw [hadd] at h
    have hfound : getMatches (itemCount ["a b", "b c", "a", "b", "c"]) extEx2.english
        ({ defaultOpts with nGrams := [2] } : Opts).min
        ({ defaultOpts with nGrams := [2] } : Opts).max =
        { Perma.const [] with POS_E := [⟨"a b", 1, 1 / 4⟩] } := rfl
    rw [hfound] at h
    rw [h]
    simp [doLex, calcLex, totalMatchCount, allCats, Perma.get, Perma.ofFn, zeroInts,
      Perma.const, roundPlaces, defaultOpts, Perma.mk.injEq]
  refine ⟨v1.trans v2.symm, ?_⟩
  rw [v1, v3]
  intro hcontra
  simp only [Option.some.injEq, Result.lex.injEq] at hcontra
  have h00 := congrArg Perma.POS_E hcontra
  simp only [Perma.const] at h00
  norm_num at h00

/-- C7 (amended): the requested n-gram spans are processed in order; the
first span whose size exceeds the pre-n-gram word count errors the
`async.each`, which skips that span and every remaining span with only a
warning, and scoring proceeds with the units assembled from the earlier
spans — the call scores exactly like one requesting only the earlier
spans.  In particular nGrams [5] on a 3-token text scores like unigram-only
scoring. -/
theorem C7_first_oversized_span_stops_loop (ext : Externals) (o : Opts) (s : String)
    (pre post : List ℕ) (n : ℕ)
    (hng : o.nGrams = pre ++ n :: post)
    (h0 : o.nGrams.contains 0 = false)
    (toks : List String)
    (htok : ext.tokenize (preprocess ext o s) = some toks)
    (hpre : ∀ m ∈ pre, ¬ toks.length < m)
    (hwc : toks.length < n) :
    run ext o s = run ext { o with nGrams := pre } s := by
  by_cases hs : s = ""
  · subst hs; rfl
  · have hpp : preprocess ext { o with nGrams := pre } s = preprocess ext o s := rfl
    have hfull0 : (pre ++ n :: post).contains 0 = false := by rw [hng] at h0; exact h0
    have hmem0 : (0 : ℕ) ∉ pre ++ n :: post := (contains_false_iff 0 _).1 hfull0
    have hp0 : pre.contains 0 = false :=
      (contains_false_iff 0 pre).2 fun hmemp => hmem0 (List.mem_append.2 (Or.inl hmemp))
    have haddL : addNGrams ext (preprocess ext o s) toks (pre ++ n :: post) =
        addNGramsGo ext (preprocess ext o s) toks.length pre toks := by
      unfold addNGrams
      rw [if_neg (by rw [hfull0]; exact Bool.false_ne_true)]
      exact addNGramsGo_stop ext (preprocess ext o s) toks.length n post hwc pre toks hpre
    have haddR : addNGrams ext (preprocess ext o s) toks pre =
        addNGramsGo ext (preprocess ext o s) toks.length pre toks := by
      unfold addNGrams
      rw [if_neg (by rw [hp0]; exact Bool.false_ne_true)]
    unfold run
    simp only [if_neg hs, hpp, htok, hng, haddL, haddR]

/-- Witness for C7: nGrams [5] on the 3-token "a b c" scores like no
n-grams at all, and the default [2, 3] on the 2-token "x y" keeps the
bigram span while the oversized 3-span is dropped. -/
theorem C7_first_oversized_span_stops_loop_witness :
    (run extEx { defaultOpts with nGrams := [5] } "a b c" =
      run extEx { defaultOpts with nGrams := ([] : List ℕ) } "a b c") ∧
    (run extEx { defaultOpts with nGrams := [2, 3] } "x y" =
      run extEx { defaultOpts with nGrams := [2] } "x y") := by
  constructor
  · have htok : extEx.tokenize
        (preprocess extEx { defaultOpts with nGrams := [5] } "a b c") =
        some ["a", "b", "c"] := by decide
    exact C7_first_oversized_span_stops_loop extEx { defaultOpts with nGrams := [5] }
      "a b c" [] [] 5 rfl (by decide) ["a", "b", "c"] htok (by simp) (by decide)
  · have htok : extEx.tokenize
        (preprocess extEx { defaultOpts with nGrams := [2, 3] } "x y") =
        some ["x", "y"] := by decide
    exact C7_first_oversized_span_stops_loop extEx { defaultOpts with nGrams := [2, 3] }
      "x y" [2] [] 3 rfl (by decide) ["x", "y"] htok (by decide) (by decide)

/-- Normalization is idempotent: re-normalizing the options object the call
wrote back into the caller's object changes nothing. -/
theorem normOpts_mutateOpts (i : OptsIn) : normOpts (mutateOpts i) = normOpts i := by
  cases hsl : i.suppressLog <;>
    simp [normOpts, mutateOpts, normMinMax, normNGrams, NumOpt.toNumber, hsl]

/-- C8: calling `wellbeingAnalysis` a second time with the same string and
the very object the first call mutated returns the same result: the
defaulting writes are idempotent, so no state carried in the caller's
options object changes the second outcome. -/
theorem C8_second_call_identical (ext : Externals) (strO : Option String) (i : OptsIn) :
    (wellbeingAnalysis ext strO ((wellbeingAnalysis ext strO i).2)).1 =
      (wellbeingAnalysis ext strO i).1 := by
  show (wellbeingAnalysis ext strO (mutateOpts i)).1 = _
  cases strO with
  | none => rfl
  | some s =>
    show run ext (normOpts (mutateOpts i)) s = run ext (normOpts i) s
    rw [normOpts_mutateOpts]

/-- The model of `Number()` on the decimal string "1.5". -/
theorem strToNum_one_point_five : strToNum "1.5" = .fin (3 / 2) := by
  simp [strToNum, jsTrim, parseUnsigned, digitsToNat, dotChar, dashChar, plusChar, List.splitOn]
  norm_num

/-- C9: the call writes the defaulted and coerced option values into the
caller's own object: after any call the object equals `mutateOpts` of its
previous state; with the empty object this is a genuine change (encoding,
lang, locale, logs, max, min, nGrams, noInt, output, sortBy and wcGrams are
all written); a string min/max has been coerced to a number (NaN when
non-numeric), and a non-array nGrams has been replaced by `[2, 3]` (or by
`[0]` when loosely zero). -/
theorem C9_options_object_mutated :
    (∀ (ext : Externals) (strO : Option String) (i : OptsIn),
      (wellbeingAnalysis ext strO i).2 = mutateOpts i) ∧
    mutateOpts emptyOptsIn ≠ emptyOptsIn ∧
    mutateOpts emptyOptsIn =
      { emptyOptsIn with
        encoding := some "binary", lang := some "english", locale := some "US",
        logs := some 3, max := .num .posInf, min := .num .negInf,
        nGrams := .arr [2, 3], noInt := some false, output := some "lex",
        sortBy := some "freq", wcGrams := some .bFalse } ∧
    (mutateOpts { emptyOptsIn with min := .str "abc", max := .str "1.5" }).min =
      .num .nan ∧
    (mutateOpts { emptyOptsIn with min := .str "abc", max := .str "1.5" }).max =
      .num (.fin (3 / 2)) ∧
    (mutateOpts { emptyOptsIn with nGrams := .scalar false }).nGrams = .arr [2, 3] ∧
    (mutateOpts { emptyOptsIn with nGrams := .scalar true }).nGrams = .arr [0] := by
  refine ⟨fun ext strO i => rfl, by decide, by decide, by decide, ?_, by decide, by decide⟩
  simp [mutateOpts, normOpts, normMinMax, NumOpt.toNumber, strToNum_one_point_five]

/-- One category's matching, characterized: filtering a lexicon entry list
against the indexed token counts keeps exactly the entries present in the
token list whose weight passes the (min, max] filter, recording each with
its occurrence count. -/
theorem getMatches_entry (toks : List String) (mi ma : JSNum) :
    ∀ l : List (String × ℚ),
      (l.filterMap fun e =>
        match List.lookup e.1 (itemCount toks) with
        | some k =>
          if JSNum.ltb mi (.fin e.2) && JSNum.leb (.fin e.2) ma then
            some (⟨e.1, k, e.2⟩ : MatchRec)
          else none
        | none => none) =
      (l.filter fun e =>
        toks.contains e.1 && (JSNum.ltb mi (.fin e.2) && JSNum.leb (.fin e.2) ma)).map
        fun e => ⟨e.1, toks.count e.1, e.2⟩
  | [] => rfl
  | e :: l => by
    have ih := getMatches_entry toks mi ma l
    have hhead : (match List.lookup e.1 (itemCount toks) with
        | some k =>
          if JSNum.ltb mi (.fin e.2) && JSNum.leb (.fin e.2) ma then
            some (⟨e.1, k, e.2⟩ : MatchRec)
          else none
        | none => none) =
        if toks.contains e.1 && (JSNum.ltb mi (.fin e.2) && JSNum.leb (.fin e.2) ma) then
          some (⟨e.1, toks.count e.1, e.2⟩ : MatchRec)
        else none := by
      rw [itemCount_lookup]
      by_cases hmem : e.1 ∈ toks
      · have hc : toks.contains e.1 = true := by simpa using hmem
        rw [if_pos hmem, hc, Bool.true_and]
      · have hc : toks.contains e.1 = false := by simpa using hmem
        rw [if_neg hmem, hc, Bool.false_and]
        simp
    rw [List.filterMap_cons, hhead, List.filter_cons]
    cases hcnd : (toks.contains e.1 && (JSNum.ltb mi (.fin e.2) && JSNum.leb (.fin e.2) ma))
    · simp only [Bool.false_eq_true, if_false, ih]
    · simp only [if_true, List.map_cons, ih]

/-- C5: for every token multiset, lexicon and bounds, the match step keeps,
in each of the ten categories, exactly the lexicon entries whose unit occurs
at least once in the multiset and whose weight w satisfies min < w and
w <= max, each recorded with the unit's occurrence count; a category with
no qualifying entry is the empty list (the filter of nothing), never an
error. -/
theorem C5_match_engine_filter (toks : List String) (lex : Lexicon)
    (mi ma : JSNum) (c : Category) :
    (getMatches (itemCount toks) lex mi ma).get c =
      ((lex.get c).filter fun e =>
        toks.contains e.1 && (JSNum.ltb mi (.fin e.2) && JSNum.leb (.fin e.2) ma)).map
        fun e => ⟨e.1, toks.count e.1, e.2⟩ := by
  unfold getMatches
  rw [Perma.get_map]
  exact getMatches_entry toks mi ma (lex.get c)

/-- Binary encoding aggregates the raw weights and ignores word count,
occurrence counts and the call-level match total. -/
theorem calcLex_binary (ms : List MatchRec) (int : ℚ) (wc allM : ℕ) (places : Option ℕ) :
    calcLex ms int "binary" wc allM places =
      roundPlaces places ((ms.map MatchRec.weight).sum + int) := by
  unfold calcLex
  rw [if_neg (by decide), if_neg (by decide)]

/-- Projecting the weight out of the built match records recovers the
lexicon weights. -/
theorem map_weight_mk (toks : List String) (l : List (String × ℚ)) :
    List.map MatchRec.weight
      (l.map fun e => (⟨e.1, toks.count e.1, e.2⟩ : MatchRec)) = l.map Prod.snd := by
  rw [List.map_map]
  rfl

/-- C4: under binary encoding the lex output is, for each of the ten
categories, the category intercept (zero on the English path) plus the sum
of the weights of every lexicon entry whose unit appears at least once in
the assembled token multiset and passes the min/max filter; and the binary
value depends on the multiset only through membership, so raising an
occurrence count above 1 (any change preserving membership) cannot change
it. -/
theorem C4_binary_weight_sum (ext : Externals) (o : Opts) (s : String)
    (hs : s ≠ "")
    (henc : o.encoding = "binary")
    (hsp : containsCI o.output "spanish" = false)
    (hes : containsCI o.output "espanol" = false)
    (hm : containsCI o.output "matches" = false)
    (hf : containsCI o.output "full" = false)
    (toks : List String)
    (htok : ext.tokenize (preprocess ext o s) = some toks) :
    (∃ v : Perma ℚ, run ext o s = some (.lex v) ∧
      ∀ c : Category,
        v.get c = roundPlaces o.places
          ((((ext.english.get c).filter fun e =>
              (addNGrams ext (preprocess ext o s) toks o.nGrams).contains e.1 &&
                (JSNum.ltb o.min (.fin e.2) && JSNum.leb (.fin e.2) o.max)).map
              Prod.snd).sum + zeroInts.get c)) ∧
    (∀ (ts ts' : List String) (lex : Lexicon) (mi ma : JSNum) (ints : Perma ℚ)
        (wc wc' : ℕ) (places : Option ℕ),
      (∀ u : String, ts.contains u = ts'.contains u) →
      doLex (getMatches (itemCount ts) lex mi ma) ints "binary" wc places =
        doLex (getMatches (itemCount ts') lex mi ma) ints "binary" wc' places) := by
  constructor
  · have h := run_lex_eval ext o s hs hsp hes hm hf toks htok
    refine ⟨_, h, ?_⟩
    intro c
    unfold doLex
    rw [Perma.get_ofFn, henc, calcLex_binary]
    unfold getMatches
    rw [Perma.get_map, getMatches_entry, map_weight_mk]
  · intro ts ts' lex mi ma ints wc wc' places hco
    unfold doLex
    apply Perma.ofFn_congr
    intro c
    rw [calcLex_binary, calcLex_binary]
    unfold getMatches
    rw [Perma.get_map, Perma.get_map, getMatches_entry, getMatches_entry,
      map_weight_mk, map_weight_mk]
    have hfe : ∀ e ∈ lex.get c,
        (ts.contains e.1 && (JSNum.ltb mi (.fin e.2) && JSNum.leb (.fin e.2) ma)) =
        (ts'.contains e.1 && (JSNum.ltb mi (.fin e.2) && JSNum.leb (.fin e.2) ma)) :=
      fun e _ => by rw [hco]
    rw [List.filter_congr hfe]

/-- Witness for C4: "happy happy" scores POS_P = 0.5 under binary encoding,
the duplicate occurrence contributing nothing beyond presence. -/
theorem C4_binary_weight_sum_witness :
    run extEx defaultOpts "happy happy" =
      some (.lex { Perma.const 0 with POS_P := 1 / 2 }) := by
  obtain ⟨⟨v, hrun, hv⟩, -⟩ := C4_binary_weight_sum extEx defaultOpts "happy happy" (by decide)
    rfl (by decide) (by decide) (by decide) (by decide) ["happy", "happy"] (by decide)
  rw [hrun]
  have hveq : v = { Perma.const 0 with POS_P := 1 / 2 } := by
    apply Perma.ext_of_get
    intro c
    rw [hv c]
    have hadd : addNGrams extEx (preprocess extEx defaultOpts "happy happy")
        ["happy", "happy"] defaultOpts.nGrams = ["happy happy", "happy", "happy"] := by
      decide
    rw [hadd]
    cases c <;>
      simp [extEx, lexEngEx, Perma.const, Perma.get, roundPlaces, zeroInts, defaultOpts,
        JSNum.ltb, JSNum.leb]
  rw [hveq]

/-- With a NaN bound on either side, the weight filter rejects every
lexicon entry. -/
theorem filterMap_nanBound_nil (counts : List (String × ℕ)) (mi ma : JSNum)
    (h : mi = .nan ∨ ma = .nan) :
    ∀ l : List (String × ℚ),
      (l.filterMap fun e =>
        match List.lookup e.1 counts with
        | some k =>
          if JSNum.ltb mi (.fin e.2) && JSNum.leb (.fin e.2) ma then
            some (⟨e.1, k, e.2⟩ : MatchRec)
          else none
        | none => none) = []
  | [] => rfl
  | e :: l => by
    have ih := filterMap_nanBound_nil counts mi ma h l
    have hcond : (JSNum.ltb mi (.fin e.2) && JSNum.leb (.fin e.2) ma) = false := by
      cases h with
      | inl hmi => rw [hmi]; simp [JSNum.ltb_nan_left]
      | inr hma => rw [hma]; simp [JSNum.leb_nan_right]
    rw [List.filterMap_cons]
    cases hlook : List.lookup e.1 counts
    · simpa using ih
    · simpa [hcond] using ih

/-- The aggregator on an empty match list under a zero call-level total
returns the rounded intercept under every encoding. -/
theorem calcLex_nil (int : ℚ) (enc : String) (wc : ℕ) (places : Option ℕ) :
    calcLex [] int enc wc 0 places = roundPlaces places int := by
  unfold calcLex
  split_ifs <;> simp

/-- Evaluation shape of `run` whenever the output option selects neither the
`matches` nor the `full` branch: the result is the lex shape, with the
lexicon and the intercept vector both selected by whether the output option
mentions spanish/espanol. -/
theorem run_lex_eval_general (ext : Externals) (o : Opts) (s : String)
    (hs : s ≠ "")
    (hm : containsCI o.output "matches" = false)
    (hf : containsCI o.output "full" = false)
    (toks : List String)
    (htok : ext.tokenize (preprocess ext o s) = some toks) :
    run ext o s =
      some (.lex (doLex
        (getMatches (itemCount (addNGrams ext (preprocess ext o s) toks o.nGrams))
          (if containsCI o.output "spanish" || containsCI o.output "espanol"
            then ext.spanish else ext.english)
          o.min o.max)
        (if containsCI o.output "spanish" || containsCI o.output "espanol"
          then (if o.noInt = false then spanishInts else zeroInts) else zeroInts)
        o.encoding
        (if o.wcGrams = .bTrue
          then (addNGrams ext (preprocess ext o s) toks o.nGrams).length
          else toks.length)
        o.places)) := by
  unfold run
  rw [if_neg hs]
  simp only [htok, hm, hf, Bool.false_eq_true, if_false]

/-- C10: a `min` or a `max` supplied as a value whose numeric coercion is
NaN leaves the normalized bound NaN — the fallback to infinity never fires
because `typeof NaN` is `'number'` —, the weight filter then compares every
lexicon weight against NaN and rejects it in every category, and any call
that falls through to the lex output carries, for each category, exactly
the (rounded) selected intercept alone: zero on the English path, the
Spanish intercepts when the output option selects the Spanish data with
noInt false. -/
theorem C10_nan_bound_rejects_everything (ext : Externals) (i : OptsIn) (s : String)
    (bad : String) (hbad : strToNum bad = .nan)
    (hbadopt : i.min = .str bad ∨ i.max = .str bad)
    (hm : containsCI (normOpts i).output "matches" = false)
    (hf : containsCI (normOpts i).output "full" = false)
    (hs : s ≠ "")
    (toks : List String)
    (htok : ext.tokenize (preprocess ext (normOpts i) s) = some toks) :
    ((normOpts i).min = .nan ∨ (normOpts i).max = .nan) ∧
    (∀ (counts : List (String × ℕ)) (lex : Lexicon) (mi ma : JSNum) (c : Category),
      (mi = .nan ∨ ma = .nan) → (getMatches counts lex mi ma).get c = []) ∧
    (∃ v : Perma ℚ, (wellbeingAnalysis ext (some s) i).1 = some (.lex v) ∧
      ∀ c, v.get c = roundPlaces (normOpts i).places
        ((if containsCI (normOpts i).output "spanish"
              || containsCI (normOpts i).output "espanol"
            then (if (normOpts i).noInt = false then spanishInts else zeroInts)
            else zeroInts).get c)) := by
  have hempty : ∀ (counts : List (String × ℕ)) (lex : Lexicon) (mi ma : JSNum) (c : Category),
      (mi = .nan ∨ ma = .nan) → (getMatches counts lex mi ma).get c = [] := by
    intro counts lex mi ma c h
    unfold getMatches
    rw [Perma.get_map]
    exact filterMap_nanBound_nil counts mi ma h (lex.get c)
  have hnan : (normOpts i).min = .nan ∨ (normOpts i).max = .nan := by
    cases hbadopt with
    | inl h => exact Or.inl (by simp [normOpts, normMinMax, NumOpt.toNumber, h, hbad])
    | inr h => exact Or.inr (by simp [normOpts, normMinMax, NumOpt.toNumber, h, hbad])
  refine ⟨hnan, hempty, ?_⟩
  have h := run_lex_eval_general ext (normOpts i) s hs hm hf toks htok
  have hfound : getMatches
      (itemCount (addNGrams ext (preprocess ext (normOpts i) s) toks (normOpts i).nGrams))
      (if containsCI (normOpts i).output "spanish" || containsCI (normOpts i).output "espanol"
        then ext.spanish else ext.english)
      (normOpts i).min (normOpts i).max = Perma.const [] :=
    Perma.ext_of_get fun c => by simp [hempty _ _ _ _ c hnan]
  rw [hfound] at h
  refine ⟨_, h, ?_⟩
  intro c
  unfold doLex
  rw [Perma.get_ofFn]
  simp [totalMatchCount, allCats, calcLex_nil]

/-- Witness for C10 on the max side and the Spanish-intercept lex path:
`max: "abc"` coerces to NaN, no entry matches even though the Spanish
lexicon carries "feliz", and the output is exactly the Spanish intercept
vector. -/
theorem C10_nan_bound_rejects_everything_witness :
    (wellbeingAnalysis extEx (some "feliz")
        { emptyOptsIn with max := .str "abc", output := some "spanish" }).1 =
      some (.lex spanishInts) := by
  obtain ⟨-, -, v, hrun, hv⟩ := C10_nan_bound_rejects_everything extEx
    { emptyOptsIn with max := .str "abc", output := some "spanish" } "feliz" "abc"
    (by decide) (Or.inr rfl) (by decide) (by decide) (by decide) ["feliz"] (by decide)
  rw [hrun]
  have hveq : v = spanishInts := Perma.ext_of_get fun c => by
    rw [hv c]
    cases c <;> rfl
  rw [hveq]

/-- C6: the word count reported for aggregation (observable as
`info.total_tokens` of the matches output) is the unigram token count
captured before any n-gram unit is appended, unless the caller set
`wcGrams` to the boolean `true` in which case it is the assembled unit
count including n-grams. -/
theorem C6_wordcount_before_ngrams (ext : Externals) (o : Opts) (s : String)
    (hs : s ≠ "")
    (hout : o.output = "matches")
    (toks : List String)
    (htok : ext.tokenize (preprocess ext o s) = some toks) :
    ∃ m : Perma MatchOut, run ext o s = some (.matchesMode m) ∧
      ∀ c, ((m.get c).info).total_tokens =
        if o.wcGrams = .bTrue
          then (addNGrams ext (preprocess ext o s) toks o.nGrams).length
          else toks.length := by
  have hsp : containsCI o.output "spanish" = false := by rw [hout]; decide
  have hes : containsCI o.output "espanol" = false := by rw [hout]; decide
  have hm : containsCI o.output "matches" = true := by rw [hout]; decide
  have h := run_matches_eval ext o s hs hsp hes hm toks htok
  refine ⟨_, h, ?_⟩
  intro c
  unfold doMatches
  rw [Perma.get_map]
  rfl

/-- Witness for C6: on "happy sad" with non-boolean `wcGrams: "true"` the
reported total token count stays 2 (the unigram count), not the 3 assembled
units, because the source compares with strict equality against `true`. -/
theorem C6_wordcount_before_ngrams_witness :
    ∃ m : Perma MatchOut,
      run extEx { defaultOpts with output := "matches", wcGrams := .sVal "true" } "happy sad" =
        some (.matchesMode m) ∧
      ((m.get .POS_P).info).total_tokens = 2 := by
  obtain ⟨m, hrun, hts⟩ := C6_wordcount_before_ngrams extEx
    { defaultOpts with output := "matches", wcGrams := .sVal "true" } "happy sad"
    (by decide) rfl ["happy", "sad"] (by decide)
  refine ⟨m, hrun, ?_⟩
  rw [hts .POS_P]
  decide

/-- C3: with output 'full' on tokenizable input the call returns the
two-component result whose `values` component is exactly what output 'lex'
would return and whose match-listing component is exactly what output
'matches' would return (and in particular the result is not undefined; the
v4.0.0 source completes `async.parallel` synchronously). -/
theorem C3_full_has_both_components (ext : Externals) (o : Opts) (s : String)
    (hs : s ≠ "")
    (hout : o.output = "full")
    (toks : List String)
    (htok : ext.tokenize (preprocess ext o s) = some toks) :
    ∃ (v : Perma ℚ) (m : Perma MatchOut),
      run ext o s = some (.full v m) ∧
      run ext { o with output := "lex" } s = some (.lex v) ∧
      run ext { o with output := "matches" } s = some (.matchesMode m) := by
  have hsp : containsCI o.output "spanish" = false := by rw [hout]; decide
  have hes : containsCI o.output "espanol" = false := by rw [hout]; decide
  have hm : containsCI o.output "matches" = false := by rw [hout]; decide
  have hf : containsCI o.output "full" = true := by rw [hout]; decide
  have h1 := run_full_eval ext o s hs hsp hes hm hf toks htok
  have htok2 : ext.tokenize (preprocess ext { o with output := "lex" } s) = some toks := htok
  have htok3 : ext.tokenize (preprocess ext { o with output := "matches" } s) = some toks := htok
  have c1 : containsCI "lex" "spanish" = false := by decide
  have c2 : containsCI "lex" "espanol" = false := by decide
  have c3 : containsCI "lex" "matches" = false := by decide
  have c4 : containsCI "lex" "full" = false := by decide
  have c5 : containsCI "matches" "spanish" = false := by decide
  have c6 : containsCI "matches" "espanol" = false := by decide
  have c7 : containsCI "matches" "matches" = true := by decide
  have h2 := run_lex_eval ext { o with output := "lex" } s hs c1 c2 c3 c4 toks htok2
  have h3 := run_matches_eval ext { o with output := "matches" } s hs c5 c6 c7 toks htok3
  exact ⟨_, _, h1, h2, h3⟩

/-- Witness for C3 at a concrete call with output 'full'. -/
theorem C3_full_has_both_components_witness :
    ∃ (v : Perma ℚ) (m : Perma MatchOut),
      run extEx { defaultOpts with output := "full" } "happy sad" = some (.full v m) ∧
      run extEx { { defaultOpts with output := "full" } with output := "lex" } "happy sad" =
        some (.lex v) ∧
      run extEx { { defaultOpts with output := "full" } with output := "matches" } "happy sad" =
        some (.matchesMode m) :=
  C3_full_has_both_components extEx { defaultOpts with output := "full" } "happy sad"
    (by decide) rfl ["happy", "sad"] (by decide)
